import Mathlib

/-!
Shallow embedding of the User Management API (src/app/main.py, src/app/models.py).

The service keeps an insertion-ordered mapping `users_db : Dict[int, User]`
and a counter `next_user_id` starting at 1.  We model the dict as an
insertion-ordered association list `List (Nat × User)` with the exact
Python-dict operations (overwrite-in-place / append on assignment, removal
on `del`, `values()` in insertion order), and each endpoint of main.py as a
function from the registry state to `Except HTTPExc (result × new state)`.

Stored attribute values: `update_user` applies `setattr` for every field
present in `user_update.dict(exclude_unset=True)`, and pydantic does not
validate assignment, so a field explicitly supplied as `null` is stored as
Python `None`.  The stored attributes are therefore `Option`-typed: `none`
models Python `None`, `some v` a real value.  A `UserUpdate` field is
`Option (Option _)`: outer `none` = field omitted (unset), `some none` =
field explicitly supplied as `null`, `some (some v)` = supplied value.

Timestamps (`datetime.now()`) are modelled as an abstract `Nat` tick passed
to `createUser`.
-/

deriving instance DecidableEq for Except

/-- A stored user record (class `User` of src/app/models.py, as it actually
lives in `users_db`: attributes can hold `None` after a null update). -/
structure User where
  id : Nat
  name : Option String
  email : Option String
  age : Option Int
  created_at : Nat
  is_active : Option Bool
deriving DecidableEq, Repr

/-- The create-request body (class `UserCreate` of src/app/models.py):
all three fields are required, hence non-optional. -/
structure UserCreate where
  name : String
  email : String
  age : Int
deriving DecidableEq, Repr

/-- The pydantic field validation of `UserCreate` (src/app/models.py
`UserBase`): `name` has min_length 1 and max_length 100, `age` is between
0 and 150.  `email` is a plain `str` with no format constraint. -/
def UserCreate.valid (u : UserCreate) : Prop :=
  1 ≤ u.name.length ∧ u.name.length ≤ 100 ∧ 0 ≤ u.age ∧ u.age ≤ 150

instance (u : UserCreate) : Decidable u.valid := by
  unfold UserCreate.valid
  infer_instance

/-- The update-request body (class `UserUpdate` of src/app/models.py).
Outer `Option`: was the field supplied at all (pydantic "unset")?
Inner `Option`: the supplied value, `none` for an explicit JSON `null`. -/
structure UserUpdate where
  name : Option (Option String)
  email : Option (Option String)
  age : Option (Option Int)
  is_active : Option (Option Bool)
deriving DecidableEq, Repr

/-- An `HTTPException` raised by an endpoint: status code and detail. -/
structure HTTPExc where
  status_code : Nat
  detail : String
deriving DecidableEq, Repr

/-- The duplicate-email failure (spec taxonomy: ConflictError):
`HTTPException(400, "Email already registered")`. -/
def emailConflict : HTTPExc := ⟨400, "Email already registered"⟩

/-- The missing-id failure (spec taxonomy: NotFoundError):
`HTTPException(404, "User not found")`. -/
def userNotFound : HTTPExc := ⟨404, "User not found"⟩

/-- The response of `delete_user`: the declared status code together with
the `message` entry of the JSON payload (if any). -/
structure DeleteResponse where
  status_code : Nat
  message : Option String
deriving DecidableEq, Repr

/-- The whole mutable state of main.py: `users_db` (insertion-ordered) and
`next_user_id`. -/
structure Registry where
  users : List (Nat × User)
  next_user_id : Nat
deriving DecidableEq, Repr

/-- The state at process start: `users_db = {}`, `next_user_id = 1`. -/
def Registry.init : Registry := ⟨[], 1⟩

/-- Python `users_db[k]` / `k in users_db`: first (only) entry with key `k`. -/
def dictGet? (l : List (Nat × User)) (k : Nat) : Option User :=
  (l.find? (fun p => p.1 == k)).map Prod.snd

/-- Python `users_db[k] = v`: overwrite in place if `k` is present
(keeping its position), otherwise append at the end. -/
def dictSet : List (Nat × User) → Nat → User → List (Nat × User)
  | [], k, v => [(k, v)]
  | p :: rest, k, v => if p.1 = k then (k, v) :: rest else p :: dictSet rest k v

/-- Python `del users_db[k]`. -/
def dictDel (l : List (Nat × User)) (k : Nat) : List (Nat × User) :=
  l.filter (fun p => p.1 != k)

/-- Endpoint `create_user` (src/app/main.py): scan all stored records for
an exact email match (`existing_user.email == user.email`); on a hit raise
400, otherwise build the record with id `next_user_id`, `created_at = now`,
`is_active = True`, insert it and increment the counter. -/
def createUser (reg : Registry) (u : UserCreate) (now : Nat) :
    Except HTTPExc (User × Registry) :=
  if reg.users.any (fun p => p.2.email == some u.email) then
    .error emailConflict
  else
    let new_user : User :=
      ⟨reg.next_user_id, some u.name, some u.email, some u.age, now, some true⟩
    .ok (new_user, ⟨dictSet reg.users reg.next_user_id new_user, reg.next_user_id + 1⟩)

/-- CPython list slicing `l[start:stop]` with step 1: negative indices count
from the end, then both indices are clamped to `[0, len(l)]`. -/
def pythonSlice (l : List User) (start stop : Int) : List User :=
  let n : Int := l.length
  let a : Nat := (if start < 0 then max (n + start) 0 else min start n).toNat
  let b : Nat := (if stop < 0 then max (n + stop) 0 else min stop n).toNat
  (l.take b).drop a

/-- Endpoint `get_users` (src/app/main.py): `list(users_db.values())[skip : skip + limit]`.
Python defaults are `skip = 0`, `limit = 100`. -/
def getUsers (reg : Registry) (skip limit : Int) : List User :=
  pythonSlice (reg.users.map Prod.snd) skip (skip + limit)

/-- Endpoint `get_user` (src/app/main.py): 404 if the id is absent,
otherwise the stored record. -/
def getUser (reg : Registry) (user_id : Nat) : Except HTTPExc User :=
  match dictGet? reg.users user_id with
  | none => .error userNotFound
  | some u => .ok u

/-- The `setattr` loop of `update_user`: every field present in
`user_update.dict(exclude_unset=True)` overwrites the stored attribute
(including explicit nulls); unset fields are untouched.  `id` and
`created_at` are not fields of `UserUpdate`, so they are never written. -/
def applyUserUpdate (c : User) (u : UserUpdate) : User :=
  { c with
    name := u.name.getD c.name
    email := u.email.getD c.email
    age := u.age.getD c.age
    is_active := u.is_active.getD c.is_active }

/-- The uniqueness re-check of `update_user`: performed only when `"email"`
is in `update_data`, against every record with a different id.  Note the
compared value is the supplied one, which may be Python `None`. -/
def updateEmailConflict (users : List (Nat × User)) (user_id : Nat) (u : UserUpdate) : Bool :=
  match u.email with
  | some e => users.any (fun p => p.1 != user_id && p.2.email == e)
  | none => false

/-- Endpoint `update_user` (src/app/main.py): 404 if the id is absent; 400
if a supplied email collides with another record; otherwise apply the
supplied fields in place and return the updated record. -/
def updateUser (reg : Registry) (user_id : Nat) (u : UserUpdate) :
    Except HTTPExc (User × Registry) :=
  match dictGet? reg.users user_id with
  | none => .error userNotFound
  | some current =>
    if updateEmailConflict reg.users user_id u then
      .error emailConflict
    else
      let updated := applyUserUpdate current u
      .ok (updated, ⟨dictSet reg.users user_id updated, reg.next_user_id⟩)

/-- Endpoint `delete_user` (src/app/main.py): 404 if the id is absent;
otherwise `del users_db[user_id]` and return
`JSONResponse(status_code=204, content={"message": "User deleted successfully"})`. -/
def deleteUser (reg : Registry) (user_id : Nat) :
    Except HTTPExc (DeleteResponse × Registry) :=
  match dictGet? reg.users user_id with
  | none => .error userNotFound
  | some _ =>
    .ok (⟨204, some "User deleted successfully"⟩,
         ⟨dictDel reg.users user_id, reg.next_user_id⟩)

/-- One logical operation against the service (the mutating and reading
endpoints; the health check touches no state). -/
inductive Op where
  | create (u : UserCreate) (now : Nat)
  | update (user_id : Nat) (u : UserUpdate)
  | delete (user_id : Nat)
  | getOne (user_id : Nat)
  | listAll (skip limit : Int)
deriving Repr

/-- The state after one operation.  Every endpoint raises before it
mutates, so a failing operation leaves the registry unchanged. -/
def applyOp (reg : Registry) : Op → Registry
  | .create u now =>
    match createUser reg u now with
    | .ok (_, reg') => reg'
    | .error _ => reg
  | .update user_id u =>
    match updateUser reg user_id u with
    | .ok (_, reg') => reg'
    | .error _ => reg
  | .delete user_id =>
    match deleteUser reg user_id with
    | .ok (_, reg') => reg'
    | .error _ => reg
  | .getOne _ => reg
  | .listAll _ _ => reg

/-- The state after a sequence of operations. -/
def applyOps (reg : Registry) : List Op → Registry
  | [] => reg
  | op :: l => applyOps (applyOp reg op) l

/-- The ids handed out by the successful creates along a trace, in order. -/
def assignedIds (reg : Registry) : List Op → List Nat
  | [] => []
  | op :: l =>
    (match op with
     | .create u now =>
       match createUser reg u now with
       | .ok (r, _) => [r.id]
       | .error _ => []
     | _ => []) ++ assignedIds (applyOp reg op) l

/-- The registry invariant of the spec's data model: pairwise distinct ids,
pairwise distinct emails, every stored id below the counter, and the
counter at least 1. -/
def Invariant (s : Registry) : Prop :=
  (s.users.map Prod.fst).Nodup ∧
  (s.users.map (fun p => p.2.email)).Nodup ∧
  (∀ p ∈ s.users, p.1 < s.next_user_id) ∧
  1 ≤ s.next_user_id

/-- Sample stored record, as created first (id 1). -/
def sampleUser1 : User :=
  ⟨1, some "John Doe", some "john@example.com", some 30, 1000, some true⟩

/-- Sample stored record, as created second (id 2). -/
def sampleUser2 : User :=
  ⟨2, some "Jane Smith", some "jane@example.com", some 25, 1001, some true⟩

/-- A registry holding `sampleUser1` only. -/
def sampleReg1 : Registry := ⟨[(1, sampleUser1)], 2⟩

/-- A registry holding `sampleUser1` and `sampleUser2` in insertion order. -/
def sampleReg2 : Registry := ⟨[(1, sampleUser1), (2, sampleUser2)], 3⟩

/-! ### Association-list (Python dict) lemmas -/

theorem dictGet?_dictSet_self (l : List (Nat × User)) (k : Nat) (v : User) :
    dictGet? (dictSet l k v) k = some v := by
  induction l with
  | nil => simp [dictGet?, dictSet]
  | cons p rest ih =>
    rcases p with ⟨k', v'⟩
    by_cases h : k' = k
    · subst h; simp [dictSet, dictGet?]
    · simpa [dictSet, h, dictGet?] using ih

theorem mem_dictSet {l : List (Nat × User)} {k : Nat} {v : User} {q : Nat × User}
    (hq : q ∈ dictSet l k v) : q = (k, v) ∨ q ∈ l := by
  induction l with
  | nil => simpa [dictSet] using hq
  | cons p rest ih =>
    by_cases h : p.1 = k
    · simp [dictSet, h] at hq
      rcases hq with hq | hq
      · exact Or.inl (by simp [hq])
      · exact Or.inr (List.mem_cons_of_mem _ hq)
    · simp [dictSet, h] at hq
      rcases hq with hq | hq
      · exact Or.inr (by simp [hq])
      · rcases ih hq with h1 | h1
        · exact Or.inl h1
        · exact Or.inr (List.mem_cons_of_mem _ h1)

theorem dictSet_eq_append {l : List (Nat × User)} {k : Nat} (v : User)
    (hk : k ∉ l.map Prod.fst) : dictSet l k v = l ++ [(k, v)] := by
  induction l with
  | nil => simp [dictSet]
  | cons p rest ih =>
    simp only [List.map_cons, List.mem_cons] at hk
    push_neg at hk
    simp [dictSet, Ne.symm hk.1, ih hk.2]

theorem mapFst_dictSet_of_mem {l : List (Nat × User)} {k : Nat} (v : User)
    (hk : k ∈ l.map Prod.fst) : (dictSet l k v).map Prod.fst = l.map Prod.fst := by
  induction l with
  | nil => simp at hk
  | cons p rest ih =>
    by_cases h : p.1 = k
    · simp [dictSet, h]
    · simp only [List.map_cons, List.mem_cons] at hk
      rcases hk with hk | hk
      · exact absurd hk.symm h
      · simp [dictSet, h, ih hk]

theorem mem_map_dictSet {l : List (Nat × User)} {k : Nat} {v : User}
    (f : Nat × User → Option String) {x : Option String}
    (hx : x ∈ (dictSet l k v).map f) : x ∈ l.map f ∨ x = f (k, v) := by
  rcases List.mem_map.1 hx with ⟨q, hq, rfl⟩
  rcases mem_dictSet hq with rfl | hq'
  · exact Or.inr rfl
  · exact Or.inl (List.mem_map_of_mem f hq')

theorem dictGet?_eq_none {l : List (Nat × User)} {k : Nat}
    (h : ∀ p ∈ l, p.1 ≠ k) : dictGet? l k = none := by
  have : l.find? (fun p => p.1 == k) = none := by
    rw [List.find?_eq_none]
    intro p hp
    simpa using h p hp
  simp [dictGet?, this]

theorem dictGet?_some_mem {l : List (Nat × User)} {k : Nat} {c : User}
    (h : dictGet? l k = some c) : (k, c) ∈ l := by
  simp only [dictGet?, Option.map_eq_some'] at h
  rcases h with ⟨q, hq, rfl⟩
  have hk : q.1 = k := by simpa using List.find?_some hq
  have hm : q ∈ l := List.mem_of_find?_eq_some hq
  rcases q with ⟨k', c⟩
  cases hk
  exact hm

/-! ### Slice lemmas -/

theorem take_min_drop_min (l : List User) (s t : Nat) :
    (l.take (min (s + t) l.length)).drop (min s l.length) = (l.drop s).take t := by
  rcases le_or_lt s l.length with hs | hs
  · rw [Nat.min_eq_left hs]
    have htake : l.take (min (s + t) l.length) = l.take (s + t) := by
      rcases le_or_lt (s + t) l.length with h | h
      · rw [Nat.min_eq_left h]
      · rw [Nat.min_eq_right (le_of_lt h), List.take_length,
            List.take_of_length_le (le_of_lt h)]
    rw [htake, List.drop_take]
    congr 1
    omega
  · rw [Nat.min_eq_right (le_of_lt hs),
        Nat.min_eq_right (show l.length ≤ s + t by omega), List.take_length,
        List.drop_length, List.drop_eq_nil_of_le (le_of_lt hs), List.take_nil]

theorem pythonSlice_nat (l : List User) (s t : Nat) :
    pythonSlice l (s : Int) ((s : Int) + (t : Int)) = (l.drop s).take t := by
  have h1 : ¬ ((s : Int) < 0) := by omega
  have h2 : ¬ ((s : Int) + (t : Int) < 0) := by omega
  have ha : (min (s : Int) (l.length : Int)).toNat = min s l.length := by omega
  have hb : (min ((s : Int) + (t : Int)) (l.length : Int)).toNat = min (s + t) l.length := by
    omega
  simp only [pythonSlice, if_neg h1, if_neg h2, ha, hb]
  exact take_min_drop_min l s t

/-! ### Claim theorems -/

/-- C1: for every registry state and every create request whose email exactly
matches the email of some stored record, `create_user` raises the conflict
error (400, "Email already registered") and leaves the registry unchanged:
no record is inserted and `next_user_id` is not incremented. -/
theorem createUser_duplicate_email_conflict (reg : Registry) (u : UserCreate)
    (now : Nat) (p : Nat × User) (hp : p ∈ reg.users)
    (he : p.2.email = some u.email) :
    createUser reg u now = .error emailConflict ∧
    applyOp reg (.create u now) = reg := by
  have hany : reg.users.any (fun q => q.2.email == some u.email) = true := by
    rw [List.any_eq_true]
    exact ⟨p, hp, by simp [he]⟩
  refine ⟨by simp [createUser, hany], ?_⟩
  simp [applyOp, createUser, hany]

/-- C1 witness: creating a second user with `sampleUser1`'s email fails with
the conflict error and leaves the one-user registry untouched. -/
theorem createUser_duplicate_email_conflict_witness :
    createUser sampleReg1 ⟨"Jane Doe", "john@example.com", 25⟩ 7 = .error emailConflict ∧
    applyOp sampleReg1 (.create ⟨"Jane Doe", "john@example.com", 25⟩ 7) = sampleReg1 :=
  createUser_duplicate_email_conflict sampleReg1 ⟨"Jane Doe", "john@example.com", 25⟩ 7
    (1, sampleUser1) (by decide) (by decide)

/-- C2: for every valid create request (name length 1..100, age in [0,150])
whose email is not stored yet, `create_user` succeeds with some record, and
`get_user` on the returned id immediately afterwards returns that very
record. -/
theorem createUser_then_getUser (reg : Registry) (u : UserCreate) (now : Nat)
    (_hvalid : u.valid) (hfresh : ∀ p ∈ reg.users, p.2.email ≠ some u.email) :
    ∃ r reg', createUser reg u now = .ok (r, reg') ∧ getUser reg' r.id = .ok r := by
  have hany : reg.users.any (fun q => q.2.email == some u.email) = false := by
    rw [List.any_eq_false]
    intro p hp
    simpa using hfresh p hp
  refine ⟨⟨reg.next_user_id, some u.name, some u.email, some u.age, now, some true⟩,
    ⟨dictSet reg.users reg.next_user_id
       ⟨reg.next_user_id, some u.name, some u.email, some u.age, now, some true⟩,
     reg.next_user_id + 1⟩, ?_, ?_⟩
  · simp [createUser, hany]
  · simp [getUser, dictGet?_dictSet_self]

/-- C2 witness: creating John Doe in the empty initial registry and reading
the returned id back gives the created record. -/
theorem createUser_then_getUser_witness :
    UserCreate.valid ⟨"John Doe", "john@example.com", 30⟩ ∧
    ∃ r reg',
      createUser Registry.init ⟨"John Doe", "john@example.com", 30⟩ 1000 = .ok (r, reg') ∧
      getUser reg' r.id = .ok r :=
  ⟨by decide,
   createUser_then_getUser Registry.init ⟨"John Doe", "john@example.com", 30⟩ 1000
     (by decide) (by decide)⟩

/-- C3: for every stored record with id `i` and every update request whose
supplied email equals the email of a different stored record, `update_user`
raises the conflict error and the registry — the target record and every
other record — is left exactly as it was. -/
theorem updateUser_duplicate_email_conflict (reg : Registry) (i : Nat) (c : User)
    (u : UserUpdate) (e : Option String) (j : Nat) (d : User)
    (hc : dictGet? reg.users i = some c) (hue : u.email = some e)
    (hj : (j, d) ∈ reg.users) (hne : j ≠ i) (hde : d.email = e) :
    updateUser reg i u = .error emailConflict ∧
    applyOp reg (.update i u) = reg := by
  have hconf : updateEmailConflict reg.users i u = true := by
    rw [updateEmailConflict, hue, List.any_eq_true]
    exact ⟨(j, d), hj, by simp [hne, hde]⟩
  refine ⟨by simp [updateUser, hc, hconf], ?_⟩
  simp [applyOp, updateUser, hc, hconf]

/-- C3 witness: updating `sampleUser2` to `sampleUser1`'s email fails with
the conflict error and leaves the two-user registry untouched. -/
theorem updateUser_duplicate_email_conflict_witness :
    updateUser sampleReg2 2 ⟨none, some (some "john@example.com"), none, none⟩ =
      .error emailConflict ∧
    applyOp sampleReg2 (.update 2 ⟨none, some (some "john@example.com"), none, none⟩) =
      sampleReg2 :=
  updateUser_duplicate_email_conflict sampleReg2 2 sampleUser2
    ⟨none, some (some "john@example.com"), none, none⟩ (some "john@example.com")
    1 sampleUser1 (by decide) rfl (by decide) (by decide) (by decide)

/-- C4: for every registry and all non-negative `skip` and `limit`,
`get_users` returns exactly the contiguous slice of the insertion-ordered
record sequence starting at offset `skip` of length at most `limit`, and is
empty as soon as `skip` reaches the number of stored records.  (It is a
total function, so it never fails.) -/
theorem getUsers_slice_spec (reg : Registry) (skip limit : Int)
    (hs : 0 ≤ skip) (hl : 0 ≤ limit) :
    getUsers reg skip limit =
      ((reg.users.map Prod.snd).drop skip.toNat).take limit.toNat ∧
    (getUsers reg skip limit).length ≤ limit.toNat ∧
    (reg.users.length ≤ skip.toNat → getUsers reg skip limit = []) := by
  obtain ⟨s, rfl⟩ := Int.eq_ofNat_of_zero_le hs
  obtain ⟨t, rfl⟩ := Int.eq_ofNat_of_zero_le hl
  have key : getUsers reg (s : Int) (t : Int) =
      ((reg.users.map Prod.snd).drop s).take t := by
    rw [getUsers]
    exact pythonSlice_nat (reg.users.map Prod.snd) s t
  have hs' : ((s : Int)).toNat = s := Int.toNat_ofNat s
  have ht' : ((t : Int)).toNat = t := Int.toNat_ofNat t
  rw [hs', ht']
  refine ⟨key, ?_, ?_⟩
  · rw [key]
    exact List.length_take_le t _
  · intro hlen
    rw [key, List.drop_eq_nil_of_le (by simpa using hlen), List.take_nil]

/-- C4 witness: on the two-user registry, `skip = 1`, `limit = 1` returns
exactly the second record. -/
theorem getUsers_slice_spec_witness :
    (getUsers sampleReg2 1 1 =
      ((sampleReg2.users.map Prod.snd).drop 1).take 1 ∧
    (getUsers sampleReg2 1 1).length ≤ 1 ∧
    (sampleReg2.users.length ≤ 1 → getUsers sampleReg2 1 1 = [])) ∧
    getUsers sampleReg2 1 1 = [sampleUser2] := by
  constructor
  · have h := getUsers_slice_spec sampleReg2 1 1 (by decide) (by decide)
    simpa using h
  · decide

/-- C6: for every stored record and every update request, a successful
`update_user` never changes `id` or `created_at` and leaves every omitted
field at its prior value; and when `email` is omitted the uniqueness check
is skipped entirely, so the call succeeds (in particular it can never
raise the conflict error). -/
theorem updateUser_frame (reg : Registry) (i : Nat) (c : User) (u : UserUpdate)
    (hc : dictGet? reg.users i = some c) :
    (∀ r reg', updateUser reg i u = .ok (r, reg') →
      r.id = c.id ∧ r.created_at = c.created_at ∧
      (u.name = none → r.name = c.name) ∧
      (u.email = none → r.email = c.email) ∧
      (u.age = none → r.age = c.age) ∧
      (u.is_active = none → r.is_active = c.is_active)) ∧
    (u.email = none →
      updateUser reg i u =
        .ok (applyUserUpdate c u,
             ⟨dictSet reg.users i (applyUserUpdate c u), reg.next_user_id⟩)) := by
  constructor
  · intro r reg' h
    by_cases hconf : updateEmailConflict reg.users i u
    · simp [updateUser, hc, hconf] at h
    · simp [updateUser, hc, hconf] at h
      obtain ⟨hr, -⟩ := h
      subst hr
      refine ⟨rfl, rfl, ?_, ?_, ?_, ?_⟩ <;> intro hnone <;> simp [applyUserUpdate, hnone]
  · intro hue
    have hconf : updateEmailConflict reg.users i u = false := by
      rw [updateEmailConflict, hue]
    simp [updateUser, hc, hconf]

/-- C6 witness: updating only `age` on `sampleUser1` succeeds, keeps id,
created_at, name, email and is_active, and raises no conflict. -/
theorem updateUser_frame_witness :
    (∀ r reg',
      updateUser sampleReg2 1 ⟨none, none, some (some 31), none⟩ = .ok (r, reg') →
      r.id = sampleUser1.id ∧ r.created_at = sampleUser1.created_at ∧
      ((none : Option (Option String)) = none → r.name = sampleUser1.name) ∧
      ((none : Option (Option String)) = none → r.email = sampleUser1.email) ∧
      ((some (some 31) : Option (Option Int)) = none → r.age = sampleUser1.age) ∧
      ((none : Option (Option Bool)) = none → r.is_active = sampleUser1.is_active)) ∧
    ((none : Option (Option String)) = none →
      updateUser sampleReg2 1 ⟨none, none, some (some 31), none⟩ =
        .ok (applyUserUpdate sampleUser1 ⟨none, none, some (some 31), none⟩,
             ⟨dictSet sampleReg2.users 1
                (applyUserUpdate sampleUser1 ⟨none, none, some (some 31), none⟩),
              sampleReg2.next_user_id⟩)) :=
  updateUser_frame sampleReg2 1 sampleUser1 ⟨none, none, some (some 31), none⟩ (by decide)

/-- C8 counterexample: at the concrete one-user registry, `delete_user 1`
removes the record but its success response is not an empty payload — the
JSON body carries the message "User deleted successfully", refuting the
claim that the acknowledgment carries no message content. -/
theorem deleteUser_message_counterexample :
    deleteUser sampleReg1 1 =
      .ok (⟨204, some "User deleted successfully"⟩, ⟨[], 2⟩) ∧
    (⟨204, some "User deleted successfully"⟩ : DeleteResponse).message ≠ none := by
  constructor
  · decide
  · decide

/-- C8 amended: for every id present in the registry, `delete_user` removes
the record (a subsequent lookup of that id finds nothing) and returns a
success acknowledgment with status 204 whose payload carries the
confirmation message "User deleted successfully" (not an empty body). -/
theorem deleteUser_removes_record (reg : Registry) (i : Nat) (c : User)
    (hc : dictGet? reg.users i = some c) :
    deleteUser reg i =
      .ok (⟨204, some "User deleted successfully"⟩,
           ⟨dictDel reg.users i, reg.next_user_id⟩) ∧
    dictGet? (dictDel reg.users i) i = none := by
  refine ⟨by simp [deleteUser, hc], ?_⟩
  apply dictGet?_eq_none
  intro p hp
  have := List.of_mem_filter hp
  simpa using this

/-- C8 amended witness: deleting id 1 from the one-user registry. -/
theorem deleteUser_removes_record_witness :
    deleteUser sampleReg1 1 =
      .ok (⟨204, some "User deleted successfully"⟩,
           ⟨dictDel sampleReg1.users 1, sampleReg1.next_user_id⟩) ∧
    dictGet? (dictDel sampleReg1.users 1) 1 = none :=
  deleteUser_removes_record sampleReg1 1 sampleUser1 (by decide)

/-- C9: an update request that explicitly supplies `null` for `name` is
accepted by `update_user` and the stored record afterwards holds `None`
for `name` — not a text value — so the data-model invariant (non-empty
name, textual email) is not preserved; likewise an explicit `null` email
is stored whenever no other record already holds `None` there. -/
theorem updateUser_null_field_stored (reg : Registry) (i : Nat) (c : User)
    (hc : dictGet? reg.users i = some c) :
    (∃ r reg', updateUser reg i ⟨some none, none, none, none⟩ = .ok (r, reg') ∧
      dictGet? reg'.users i = some r ∧ r.name = none) ∧
    ((∀ p ∈ reg.users, p.1 ≠ i → p.2.email ≠ none) →
      ∃ r reg', updateUser reg i ⟨none, some none, none, none⟩ = .ok (r, reg') ∧
        dictGet? reg'.users i = some r ∧ r.email = none) := by
  constructor
  · have hconf : updateEmailConflict reg.users i ⟨some none, none, none, none⟩ = false := rfl
    refine ⟨applyUserUpdate c ⟨some none, none, none, none⟩,
      ⟨dictSet reg.users i (applyUserUpdate c ⟨some none, none, none, none⟩),
       reg.next_user_id⟩, ?_, ?_, ?_⟩
    · simp [updateUser, hc, hconf]
    · exact dictGet?_dictSet_self reg.users i _
    · rfl
  · intro hother
    have hconf : updateEmailConflict reg.users i ⟨none, some none, none, none⟩ = false := by
      rw [updateEmailConflict]
      rw [List.any_eq_false]
      intro p hp
      by_cases h : p.1 = i
      · simp [h]
      · simp [h]
        exact hother p hp h
    refine ⟨applyUserUpdate c ⟨none, some none, none, none⟩,
      ⟨dictSet reg.users i (applyUserUpdate c ⟨none, some none, none, none⟩),
       reg.next_user_id⟩, ?_, ?_, ?_⟩
    · simp [updateUser, hc, hconf]
    · exact dictGet?_dictSet_self reg.users i _
    · rfl

/-- C9 witness: explicitly null updates against the one-user registry. -/
theorem updateUser_null_field_stored_witness :
    (∃ r reg', updateUser sampleReg1 1 ⟨some none, none, none, none⟩ = .ok (r, reg') ∧
      dictGet? reg'.users 1 = some r ∧ r.name = none) ∧
    ((∀ p ∈ sampleReg1.users, p.1 ≠ 1 → p.2.email ≠ none) →
      ∃ r reg', updateUser sampleReg1 1 ⟨none, some none, none, none⟩ = .ok (r, reg') ∧
        dictGet? reg'.users 1 = some r ∧ r.email = none) :=
  updateUser_null_field_stored sampleReg1 1 sampleUser1 (by decide)

/-- C10: with the two-record registry (a non-empty registry) and the
negative offset `skip = -1`, `get_users` returns the record taken from the
end of the insertion-ordered sequence — Python negative-index slice
semantics — rather than an empty sequence or a failure. -/
theorem getUsers_negative_skip :
    sampleReg2.users.map Prod.snd = [sampleUser1, sampleUser2] ∧
    getUsers sampleReg2 (-1) 100 = [sampleUser2] ∧
    getUsers sampleReg2 (-1) 100 ≠ [] := by
  refine ⟨by decide, by decide, by decide⟩

/-! ### Inversion lemmas for the successful operations -/

theorem createUser_ok_inv {reg : Registry} {u : UserCreate} {now : Nat}
    {r : User} {reg' : Registry} (h : createUser reg u now = .ok (r, reg')) :
    reg.users.any (fun p => p.2.email == some u.email) = false ∧
    r = ⟨reg.next_user_id, some u.name, some u.email, some u.age, now, some true⟩ ∧
    reg' = ⟨dictSet reg.users reg.next_user_id r, reg.next_user_id + 1⟩ := by
  by_cases hany : reg.users.any (fun p => p.2.email == some u.email)
  · simp [createUser, hany] at h
  · simp [createUser, hany] at h
    obtain ⟨hr, hreg⟩ := h
    exact ⟨by simpa using hany, hr.symm, by rw [← hreg, hr]⟩

theorem updateUser_ok_inv {reg : Registry} {i : Nat} {u : UserUpdate}
    {r : User} {reg' : Registry} (h : updateUser reg i u = .ok (r, reg')) :
    ∃ c, dictGet? reg.users i = some c ∧
      updateEmailConflict reg.users i u = false ∧
      r = applyUserUpdate c u ∧
      reg' = ⟨dictSet reg.users i r, reg.next_user_id⟩ := by
  rcases hg : dictGet? reg.users i with _ | c
  · rw [updateUser, hg] at h
    simp at h
  · rw [updateUser, hg] at h
    by_cases hconf : updateEmailConflict reg.users i u
    · simp [hconf] at h
    · simp [hconf] at h
      obtain ⟨hr, hreg⟩ := h
      exact ⟨c, rfl, by simpa using hconf, hr.symm, by rw [← hreg, hr]⟩

theorem deleteUser_ok_inv {reg : Registry} {i : Nat} {resp : DeleteResponse}
    {reg' : Registry} (h : deleteUser reg i = .ok (resp, reg')) :
    (∃ c, dictGet? reg.users i = some c) ∧
    resp = ⟨204, some "User deleted successfully"⟩ ∧
    reg' = ⟨dictDel reg.users i, reg.next_user_id⟩ := by
  rcases hg : dictGet? reg.users i with _ | c
  · rw [deleteUser, hg] at h
    simp at h
  · rw [deleteUser, hg] at h
    simp at h
    exact ⟨⟨c, rfl⟩, h.1.symm, h.2.symm⟩

/-! ### Step lemmas for traces -/

theorem next_user_id_le_applyOp (s : Registry) (op : Op) :
    s.next_user_id ≤ (applyOp s op).next_user_id := by
  cases op with
  | create u now =>
    rcases hres : createUser s u now with e | ⟨r, reg2⟩
    · simp [applyOp, hres]
    · obtain ⟨-, -, hreg⟩ := createUser_ok_inv hres
      simp [applyOp, hres, hreg]
  | update j u =>
    rcases hres : updateUser s j u with e | ⟨r, reg2⟩
    · simp [applyOp, hres]
    · obtain ⟨c, -, -, -, hreg⟩ := updateUser_ok_inv hres
      simp [applyOp, hres, hreg]
  | delete j =>
    rcases hres : deleteUser s j with e | ⟨resp, reg2⟩
    · simp [applyOp, hres]
    · obtain ⟨-, -, hreg⟩ := deleteUser_ok_inv hres
      simp [applyOp, hres, hreg]
  | getOne j => simp [applyOp]
  | listAll a b => simp [applyOp]

theorem avoid_key_applyOp (s : Registry) (op : Op) (i : Nat)
    (hbound : ∀ p ∈ s.users, p.1 < s.next_user_id)
    (havoid : ∀ p ∈ s.users, p.1 ≠ i) (hlt : i < s.next_user_id) :
    (∀ p ∈ (applyOp s op).users, p.1 < (applyOp s op).next_user_id) ∧
    (∀ p ∈ (applyOp s op).users, p.1 ≠ i) ∧ i < (applyOp s op).next_user_id := by
  cases op with
  | create u now =>
    rcases hres : createUser s u now with e | ⟨r, reg2⟩
    · simp only [applyOp, hres]
      exact ⟨hbound, havoid, hlt⟩
    · obtain ⟨-, hr, hreg⟩ := createUser_ok_inv hres
      simp only [applyOp, hres, hreg]
      refine ⟨?_, ?_, by simpa using Nat.lt_succ_of_lt hlt⟩
      · intro p hp
        rcases mem_dictSet hp with rfl | hp'
        · simp
        · exact Nat.lt_succ_of_lt (hbound p hp')
      · intro p hp
        rcases mem_dictSet hp with rfl | hp'
        · simpa using Nat.ne_of_gt hlt
        · exact havoid p hp'
  | update j u =>
    rcases hres : updateUser s j u with e | ⟨r, reg2⟩
    · simp only [applyOp, hres]
      exact ⟨hbound, havoid, hlt⟩
    · obtain ⟨c, hc, -, -, hreg⟩ := updateUser_ok_inv hres
      have hjmem : (j, c) ∈ s.users := dictGet?_some_mem hc
      simp only [applyOp, hres, hreg]
      refine ⟨?_, ?_, hlt⟩
      · intro p hp
        rcases mem_dictSet hp with rfl | hp'
        · simpa using hbound (j, c) hjmem
        · exact hbound p hp'
      · intro p hp
        rcases mem_dictSet hp with rfl | hp'
        · simpa using havoid (j, c) hjmem
        · exact havoid p hp'
  | delete j =>
    rcases hres : deleteUser s j with e | ⟨resp, reg2⟩
    · simp only [applyOp, hres]
      exact ⟨hbound, havoid, hlt⟩
    · obtain ⟨-, -, hreg⟩ := deleteUser_ok_inv hres
      simp only [applyOp, hres, hreg]
      refine ⟨?_, ?_, hlt⟩
      · intro p hp
        exact hbound p (List.mem_of_mem_filter hp)
      · intro p hp
        exact havoid p (List.mem_of_mem_filter hp)
  | getOne j =>
    simp only [applyOp]
    exact ⟨hbound, havoid, hlt⟩
  | listAll a b =>
    simp only [applyOp]
    exact ⟨hbound, havoid, hlt⟩

theorem avoid_key_applyOps (l : List Op) (s : Registry) (i : Nat)
    (hbound : ∀ p ∈ s.users, p.1 < s.next_user_id)
    (havoid : ∀ p ∈ s.users, p.1 ≠ i) (hlt : i < s.next_user_id) :
    (∀ p ∈ (applyOps s l).users, p.1 < (applyOps s l).next_user_id) ∧
    (∀ p ∈ (applyOps s l).users, p.1 ≠ i) ∧ i < (applyOps s l).next_user_id := by
  induction l generalizing s with
  | nil => exact ⟨hbound, havoid, hlt⟩
  | cons op rest ih =>
    obtain ⟨h1, h2, h3⟩ := avoid_key_applyOp s op i hbound havoid hlt
    exact ih (applyOp s op) h1 h2 h3

/-- C5: once `delete_user i` has succeeded (in a state whose stored ids are
all below the counter), then in every state reachable by any further
sequence of operations, `get_user i` returns the not-found error, and no
successful `create_user` ever hands out id `i` again. -/
theorem deleteUser_permanent (reg : Registry) (i : Nat)
    (hbound : ∀ p ∈ reg.users, p.1 < reg.next_user_id)
    (resp : DeleteResponse) (reg1 : Registry)
    (hdel : deleteUser reg i = .ok (resp, reg1)) (l : List Op) :
    getUser (applyOps reg1 l) i = .error userNotFound ∧
    ∀ u now r s', createUser (applyOps reg1 l) u now = .ok (r, s') → r.id ≠ i := by
  obtain ⟨⟨c, hc⟩, -, hreg1⟩ := deleteUser_ok_inv hdel
  have hicount : i < reg.next_user_id := hbound (i, c) (dictGet?_some_mem hc)
  have h1 : ∀ p ∈ reg1.users, p.1 < reg1.next_user_id := by
    intro p hp
    rw [hreg1] at hp ⊢
    exact hbound p (List.mem_of_mem_filter hp)
  have h2 : ∀ p ∈ reg1.users, p.1 ≠ i := by
    intro p hp
    rw [hreg1] at hp
    have := List.of_mem_filter hp
    simpa using this
  have h3 : i < reg1.next_user_id := by
    rw [hreg1]
    exact hicount
  obtain ⟨hb, ha, hi⟩ := avoid_key_applyOps l reg1 i h1 h2 h3
  constructor
  · rw [getUser, dictGet?_eq_none ha]
  · intro u now r s' hcr
    obtain ⟨-, hr, -⟩ := createUser_ok_inv hcr
    rw [hr]
    exact Nat.ne_of_gt hi

/-- C5 witness: delete the only user of `sampleReg1`, then run a further
create; the deleted id 1 stays not-found and the new record gets id 2. -/
theorem deleteUser_permanent_witness :
    getUser (applyOps ⟨[], 2⟩ [.create ⟨"New User", "new@example.com", 40⟩ 9]) 1 =
      .error userNotFound ∧
    ∀ u now r s',
      createUser (applyOps ⟨[], 2⟩ [.create ⟨"New User", "new@example.com", 40⟩ 9]) u now =
        .ok (r, s') → r.id ≠ 1 :=
  deleteUser_permanent sampleReg1 1 (by decide)
    ⟨204, some "User deleted successfully"⟩ ⟨[], 2⟩ (by decide)
    [.create ⟨"New User", "new@example.com", 40⟩ 9]

theorem nodup_emails_dictSet {l : List (Nat × User)} {k : Nat} {v : User}
    (hem : (l.map (fun p => p.2.email)).Nodup)
    (hkeys : (l.map Prod.fst).Nodup)
    (hv : ∀ p ∈ l, p.1 ≠ k → p.2.email ≠ v.email) :
    ((dictSet l k v).map (fun p => p.2.email)).Nodup := by
  induction l with
  | nil => simp [dictSet]
  | cons p rest ih =>
    rw [List.map_cons, List.nodup_cons] at hem hkeys
    by_cases h : p.1 = k
    · simp only [dictSet, if_pos h, List.map_cons, List.nodup_cons]
      refine ⟨?_, hem.2⟩
      intro hmem
      rcases List.mem_map.1 hmem with ⟨q, hq, hqe⟩
      have hq1 : q.1 ≠ k := by
        intro hqk
        exact hkeys.1 (h ▸ hqk ▸ List.mem_map_of_mem Prod.fst hq)
      exact hv q (List.mem_cons_of_mem _ hq) hq1 hqe
    · simp only [dictSet, if_neg h, List.map_cons, List.nodup_cons]
      refine ⟨?_, ih hem.2 hkeys.2 (fun q hq hq1 => hv q (List.mem_cons_of_mem _ hq) hq1)⟩
      intro hmem
      rcases mem_map_dictSet (fun p => p.2.email) hmem with hold | heq
      · exact hem.1 hold
      · exact hv p (List.mem_cons_self p rest) h heq

theorem invariant_applyOp (s : Registry) (op : Op) (h : Invariant s) :
    Invariant (applyOp s op) := by
  obtain ⟨hids, hem, hbound, hone⟩ := h
  cases op with
  | create u now =>
    rcases hres : createUser s u now with e | ⟨r, reg2⟩
    · have hstep : applyOp s (.create u now) = s := by simp [applyOp, hres]
      rw [hstep]
      exact ⟨hids, hem, hbound, hone⟩
    · obtain ⟨hany, hr, hreg⟩ := createUser_ok_inv hres
      have hstep : applyOp s (.create u now) = reg2 := by simp [applyOp, hres]
      rw [hstep, hreg]
      have hfresh : s.next_user_id ∉ s.users.map Prod.fst := by
        intro hmem
        rcases List.mem_map.1 hmem with ⟨q, hq, hq1⟩
        exact absurd hq1 (Nat.ne_of_lt (hbound q hq))
      have happ : dictSet s.users s.next_user_id r = s.users ++ [(s.next_user_id, r)] :=
        dictSet_eq_append r hfresh
      have hnew : ∀ q ∈ s.users, q.2.email ≠ r.email := by
        rw [List.any_eq_false] at hany
        intro q hq
        have := hany q hq
        rw [hr]
        simpa using this
      simp only [Invariant, happ]
      refine ⟨?_, ?_, ?_, ?_⟩
      · rw [List.map_append, List.nodup_append]
        refine ⟨hids, by simp, ?_⟩
        intro x hx hy
        simp only [List.map_cons, List.map_nil, List.mem_singleton] at hy
        subst hy
        exact hfresh hx
      · rw [List.map_append, List.nodup_append]
        refine ⟨hem, by simp, ?_⟩
        intro x hx hy
        simp only [List.map_cons, List.map_nil, List.mem_singleton] at hy
        subst hy
        rcases List.mem_map.1 hx with ⟨q, hq, hq1⟩
        exact hnew q hq hq1
      · intro q hq
        rcases List.mem_append.1 hq with hq2 | hq2
        · exact Nat.lt_succ_of_lt (hbound q hq2)
        · simp only [List.mem_singleton] at hq2
          subst hq2
          exact Nat.lt_succ_self _
      · exact Nat.le_succ_of_le hone
  | update j u =>
    rcases hres : updateUser s j u with e | ⟨r, reg2⟩
    · have hstep : applyOp s (.update j u) = s := by simp [applyOp, hres]
      rw [hstep]
      exact ⟨hids, hem, hbound, hone⟩
    · obtain ⟨c, hc, hconf, hr, hreg⟩ := updateUser_ok_inv hres
      have hstep : applyOp s (.update j u) = reg2 := by simp [applyOp, hres]
      rw [hstep, hreg]
      have hjmem : (j, c) ∈ s.users := dictGet?_some_mem hc
      have hjkey : j ∈ s.users.map Prod.fst := List.mem_map_of_mem Prod.fst hjmem
      have hrmail : ∀ p ∈ s.users, p.1 ≠ j → p.2.email ≠ r.email := by
        intro p hp hpj
        rcases hue : u.email with _ | e
        · have hre : r.email = c.email := by simp [hr, applyUserUpdate, hue]
          rw [hre]
          intro heq
          have hinj := List.inj_on_of_nodup_map hem hp hjmem heq
          exact hpj (by rw [hinj])
        · have hre : r.email = e := by simp [hr, applyUserUpdate, hue]
          rw [hre]
          rw [updateEmailConflict, hue, List.any_eq_false] at hconf
          have := hconf p hp
          simpa [hpj] using this
      simp only [Invariant]
      refine ⟨?_, ?_, ?_, hone⟩
      · rw [mapFst_dictSet_of_mem r hjkey]
        exact hids
      · exact nodup_emails_dictSet hem hids hrmail
      · intro q hq
        rcases mem_dictSet hq with rfl | hq2
        · simpa using hbound (j, c) hjmem
        · exact hbound q hq2
  | delete j =>
    rcases hres : deleteUser s j with e | ⟨resp, reg2⟩
    · have hstep : applyOp s (.delete j) = s := by simp [applyOp, hres]
      rw [hstep]
      exact ⟨hids, hem, hbound, hone⟩
    · obtain ⟨-, -, hreg⟩ := deleteUser_ok_inv hres
      have hstep : applyOp s (.delete j) = reg2 := by simp [applyOp, hres]
      rw [hstep, hreg]
      have hsub : List.Sublist (dictDel s.users j) s.users := List.filter_sublist s.users
      simp only [Invariant]
      refine ⟨?_, ?_, ?_, hone⟩
      · exact hids.sublist (hsub.map Prod.fst)
      · exact hem.sublist (hsub.map (fun p => p.2.email))
      · intro q hq
        exact hbound q (hsub.subset hq)
  | getOne j =>
    exact ⟨hids, hem, hbound, hone⟩
  | listAll a b =>
    exact ⟨hids, hem, hbound, hone⟩

theorem invariant_applyOps (l : List Op) (s : Registry) (h : Invariant s) :
    Invariant (applyOps s l) := by
  induction l generalizing s with
  | nil => exact h
  | cons op rest ih => exact ih (applyOp s op) (invariant_applyOp s op h)

theorem applyOps_append (s : Registry) (l1 l2 : List Op) :
    applyOps s (l1 ++ l2) = applyOps (applyOps s l1) l2 := by
  induction l1 generalizing s with
  | nil => rfl
  | cons op rest ih => simpa [applyOps] using ih (applyOp s op)

theorem next_user_id_le_applyOps (l : List Op) (s : Registry) :
    s.next_user_id ≤ (applyOps s l).next_user_id := by
  induction l generalizing s with
  | nil => exact le_refl _
  | cons op rest ih =>
    exact le_trans (next_user_id_le_applyOp s op) (ih (applyOp s op))

theorem assignedIds_cons_create (s : Registry) (u : UserCreate) (now : Nat)
    (rest : List Op) :
    assignedIds s (.create u now :: rest) =
      (match createUser s u now with
       | .ok (r, _) => [r.id]
       | .error _ => []) ++ assignedIds (applyOp s (.create u now)) rest := rfl

theorem assignedIds_lower_bound (l : List Op) (s : Registry) :
    ∀ x ∈ assignedIds s l, s.next_user_id ≤ x := by
  induction l generalizing s with
  | nil => simp [assignedIds]
  | cons op rest ih =>
    intro x hx
    have htail : x ∈ assignedIds (applyOp s op) rest → s.next_user_id ≤ x :=
      fun hmem =>
        le_trans (next_user_id_le_applyOp s op) (ih (applyOp s op) x hmem)
    cases op with
    | create u now =>
      rw [assignedIds_cons_create] at hx
      rcases hres : createUser s u now with e | ⟨r, reg2⟩
      · rw [hres] at hx
        exact htail (by simpa using hx)
      · rw [hres] at hx
        simp only [List.singleton_append, List.mem_cons] at hx
        rcases hx with rfl | hx
        · obtain ⟨-, hr, -⟩ := createUser_ok_inv hres
          rw [hr]
        · exact htail hx
    | update j u => exact htail hx
    | delete j => exact htail hx
    | getOne j => exact htail hx
    | listAll a b => exact htail hx

theorem assignedIds_pairwise_lt (l : List Op) (s : Registry) :
    (assignedIds s l).Pairwise (· < ·) := by
  induction l generalizing s with
  | nil => simp [assignedIds]
  | cons op rest ih =>
    cases op with
    | create u now =>
      rw [assignedIds_cons_create]
      rcases hres : createUser s u now with e | ⟨r, reg2⟩
      · simpa using ih (applyOp s (.create u now))
      · simp only [List.singleton_append, List.pairwise_cons]
        obtain ⟨-, hr, hreg⟩ := createUser_ok_inv hres
        have hnext : (applyOp s (.create u now)).next_user_id = s.next_user_id + 1 := by
          simp [applyOp, hres, hreg]
        refine ⟨?_, ih (applyOp s (.create u now))⟩
        intro y hy
        have hle := assignedIds_lower_bound rest (applyOp s (.create u now)) y hy
        rw [hnext] at hle
        rw [hr]
        exact Nat.lt_of_succ_le hle
    | update j u => exact ih (applyOp s (.update j u))
    | delete j => exact ih (applyOp s (.delete j))
    | getOne j => exact ih (applyOp s (.getOne j))
    | listAll a b => exact ih (applyOp s (.listAll a b))

/-- C7: in every state reachable from the initial empty registry by any
sequence of operations, stored records have pairwise distinct ids and
pairwise distinct emails; the id counter starts at 1, bounds every stored
id from above, and never decreases along any continuation of the trace;
and the ids handed out by the successful creates of a trace are strictly
increasing — hence pairwise distinct, so no id is ever assigned twice,
deletions notwithstanding. -/
theorem registry_invariants (l : List Op) :
    Invariant (applyOps Registry.init l) ∧
    Registry.init.next_user_id = 1 ∧
    (∀ l2 : List Op, (applyOps Registry.init l).next_user_id ≤
      (applyOps Registry.init (l ++ l2)).next_user_id) ∧
    (assignedIds Registry.init l).Pairwise (· < ·) ∧
    (assignedIds Registry.init l).Nodup := by
  have hinit : Invariant Registry.init := by
    refine ⟨?_, ?_, ?_, ?_⟩ <;> simp [Registry.init, Invariant]
  refine ⟨invariant_applyOps l Registry.init hinit, rfl, ?_, ?_, ?_⟩
  · intro l2
    rw [applyOps_append]
    exact next_user_id_le_applyOps l2 (applyOps Registry.init l)
  · exact assignedIds_pairwise_lt l Registry.init
  · exact (assignedIds_pairwise_lt l Registry.init).imp (fun h => Nat.ne_of_lt h)
